import Mathlib

/-!
Verification of the mDNS client query engine (client.go of the
golang-armon-mdns package) against its specification.

The embedding models the pure data flow of the client: DNS answer
records arriving on the internal message channel, the in-progress
name-to-entry map mutated by the answer switch in `query`, the
completeness check, the emission and follow-up-query decision, and the
surrounding error plumbing of `newClient`, `sendQuery`, `query`,
`LookupDomain` and `Lookup`.  Effects that the code performs but never
observes (socket writes whose results are discarded, log output) appear
as parameters or are dropped; fallible control flow (the nil-pointer
dereference that a message without a matching answer record triggers)
is modelled with `Option`, `none` standing for a runtime panic.
-/

namespace Mdns

/-- Go's `net.IP` is a byte slice that may be nil; `none` models the nil
slice, `some bytes` a non-nil slice. -/
abbrev IP := Option (List Nat)

/-- `ServiceEntry` from client.go: name, address, port, joined TXT info,
plus the two private flags `hasTXT` and `sent`.  Zero values of Go are
the defaults. -/
structure ServiceEntry where
  Name : String
  Addr : IP := none
  Port : Int := 0
  Info : String := ""
  hasTXT : Bool := false
  sent : Bool := false
deriving DecidableEq

/-- `(s *ServiceEntry) complete()`: `s.Addr != nil && s.Port != 0 && s.hasTXT`. -/
def ServiceEntry.complete (s : ServiceEntry) : Bool :=
  s.Addr != none && s.Port != 0 && s.hasTXT

/-- The DNS answer records the switch in `query` distinguishes.  `ptr`
carries the header name and `rr.Ptr`; `srv` the header name, `rr.Target`
and `rr.Port` (a uint16, hence a `Nat`); `txt` the header name and
`rr.Txt`; `a`/`aaaa` the header name and the address bytes (`net.IP`,
possibly nil).  `other` stands for any record type the switch has no
case for (e.g. NSEC), which leaves the loop state untouched. -/
inductive RR where
  | ptr (hdrName target : String)
  | srv (hdrName target : String) (srvPort : Nat)
  | txt (hdrName : String) (txtData : List String)
  | a (hdrName : String) (addr : IP)
  | aaaa (hdrName : String) (addr : IP)
  | other (hdrName : String)
deriving DecidableEq

/-- The in-progress map `map[string]*ServiceEntry`, modelled as an
association list (pointer mutation becomes in-place value update). -/
abbrev EntryMap := List (String × ServiceEntry)

/-- Go map read `inprogress[name]`. -/
def lookupEntry : EntryMap → String → Option ServiceEntry
  | [], _ => none
  | (k, e) :: rest, name => if k = name then some e else lookupEntry rest name

/-- `ensureName` from client.go: return the map unchanged when the name
is present, otherwise insert a fresh entry carrying only the name. -/
def ensureName (m : EntryMap) (name : String) : EntryMap :=
  match lookupEntry m name with
  | some _ => m
  | none => m ++ [(name, { Name := name })]

/-- Mutation through the pointer returned by `ensureName`: rewrite the
entry stored under `name`. -/
def updateEntry : EntryMap → String → (ServiceEntry → ServiceEntry) → EntryMap
  | [], _, _ => []
  | (k, e) :: rest, name, f =>
      if k = name then (k, f e) :: updateEntry rest name f
      else (k, e) :: updateEntry rest name f

/-- Which name a record makes `ensureName` touch: `rr.Ptr` for PTR,
`rr.Target` for SRV, the header name for TXT/A/AAAA, nothing for
records outside the switch. -/
def rrName : RR → Option String
  | .ptr _ target => some target
  | .srv _ target _ => some target
  | .txt hdrName _ => some hdrName
  | .a hdrName _ => some hdrName
  | .aaaa hdrName _ => some hdrName
  | .other _ => none

/-- The field mutation each case of the answer switch performs on the
entry returned by `ensureName`: PTR only creates, SRV stores the port,
TXT joins the strings with `"|"` and sets `hasTXT`, A/AAAA store the
address. -/
def applyRR (e : ServiceEntry) : RR → ServiceEntry
  | .ptr _ _ => e
  | .srv _ _ srvPort => { e with Port := (srvPort : Int) }
  | .txt _ txtData => { e with Info := String.intercalate "|" txtData, hasTXT := true }
  | .a _ addr => { e with Addr := addr }
  | .aaaa _ addr => { e with Addr := addr }
  | .other _ => e

/-- One iteration of `for _, answer := range resp.Answer`: the state is
the in-progress map together with `inp`, the pointer to the most
recently touched entry (modelled by its key).  Each case mirrors the
corresponding case of the switch in `query`. -/
def processAnswer : EntryMap × Option String → RR → EntryMap × Option String
  | (m, _), .ptr _ target =>
      (ensureName m target, some target)
  | (m, _), .srv _ target srvPort =>
      (updateEntry (ensureName m target) target
        (fun e => { e with Port := (srvPort : Int) }), some target)
  | (m, _), .txt hdrName txtData =>
      (updateEntry (ensureName m hdrName) hdrName
        (fun e => { e with Info := String.intercalate "|" txtData, hasTXT := true }),
       some hdrName)
  | (m, _), .a hdrName addr =>
      (updateEntry (ensureName m hdrName) hdrName
        (fun e => { e with Addr := addr }), some hdrName)
  | (m, _), .aaaa hdrName addr =>
      (updateEntry (ensureName m hdrName) hdrName
        (fun e => { e with Addr := addr }), some hdrName)
  | st, .other _ => st

/-- The observable state of one `query` invocation: the in-progress map,
the names for which a send on the `entries` channel was attempted (in
order), and the names for which a node-specific follow-up query was
fired (in order). -/
structure QState where
  inprogress : EntryMap
  emitted : List String
  followups : List String
deriving DecidableEq

/-- The state at the top of the receive loop: empty map, nothing emitted,
no follow-up queries sent. -/
def QState.init : QState := ⟨[], [], []⟩

/-- Handling of one decoded message from `msgCh`: run the answer switch
over all answers starting from `inp = nil`, then the post-loop check
`if inp.complete() && !inp.sent`.  When no answer matched the switch,
`inp` is still the nil pointer and `inp.complete()` panics: modelled by
`none`.  (The inner `lookupEntry` miss is unreachable: a touched name is
always in the map.) -/
def processMessage? (st : QState) (answers : List RR) : Option QState :=
  match answers.foldl processAnswer (st.inprogress, none) with
  | (_, none) => none
  | (m, some n) =>
    match lookupEntry m n with
    | none => none
    | some e =>
      if e.complete && !e.sent then
        some { inprogress := updateEntry m n (fun i => { i with sent := true }),
               emitted := st.emitted ++ [n],
               followups := st.followups }
      else
        some { inprogress := m,
               emitted := st.emitted,
               followups := st.followups ++ [n] }

/-- The receive loop of `query`, driven by the finite list of messages
that arrive before the timeout fires. -/
def queryLoop (st : QState) : List (List RR) → Option QState
  | [] => some st
  | msg :: rest =>
    match processMessage? st msg with
    | none => none
    | some st' => queryLoop st' rest

/-- `query` itself: send the initial question (whose outcome is the
`initialSendErr` parameter — `some err` when `sendQuery` failed), then
run the loop until the timeout.  The source returns `nil` on a failed
initial send (client.go line 121) and `nil` at the timeout, so the
error component of the result is the literal `none` in both branches. -/
def query (initialSendErr : Option String) (msgs : List (List RR)) :
    Option (Option String × QState) :=
  match initialSendErr with
  | some _ => some (none, QState.init)
  | none => (queryLoop QState.init msgs).map (fun st => (none, st))

/-- A bound UDP socket (`*net.UDPConn`); only its identity matters. -/
structure UDPConn where
  fd : Nat
deriving DecidableEq

/-- The `client` struct: the two listeners (nil when the bind for that
family failed) and the closed flag. -/
structure Client where
  ipv4List : Option UDPConn
  ipv6List : Option UDPConn
  closed : Bool
deriving DecidableEq

/-- `newClient`, with the outcomes of the two `net.ListenUDP` calls as
parameters (`none` = the bind failed and left a nil listener; the error
itself is only logged).  Fails exactly when `ipv4 == nil && ipv6 == nil`. -/
def newClient (ipv4 ipv6 : Option UDPConn) : Except String Client :=
  if ipv4 = none ∧ ipv6 = none then
    .error "Failed to bind to any udp port!"
  else
    .ok { ipv4List := ipv4, ipv6List := ipv6, closed := false }

/-- `sendQuery`: pack the message (outcome `packResult`), return the pack
error if any; otherwise write to each non-nil listener.  The `WriteTo`
return values are discarded by the source, so the write outcomes `w4`
and `w6` never influence the result. -/
def sendQuery (_c : Client) (packResult : Except String (List Nat))
    (_w4 _w6 : Option String) : Option String :=
  match packResult with
  | .error err => some err
  | .ok _buf => none

/-- `LookupDomain`: create the client from the two bind outcomes,
surface its error, otherwise run `query` and return its error
component.  The outer `Option` is `none` when `query` panics. -/
def LookupDomain (ipv4 ipv6 : Option UDPConn) (initialSendErr : Option String)
    (msgs : List (List RR)) : Option (Option String) :=
  match newClient ipv4 ipv6 with
  | .error err => some (some err)
  | .ok _c => (query initialSendErr msgs).map Prod.fst

/-- `Lookup`: `LookupDomain` in the "local" domain with a one second
timeout; the discovery behaviour is identical. -/
def Lookup (ipv4 ipv6 : Option UDPConn) (initialSendErr : Option String)
    (msgs : List (List RR)) : Option (Option String) :=
  LookupDomain ipv4 ipv6 initialSendErr msgs

/-- Whether an SRV record occurs in the list. -/
def hasSrvRecord (rrs : List RR) : Bool :=
  rrs.any (fun rr => match rr with | .srv _ _ _ => true | _ => false)

/-- Whether an A or AAAA record occurs in the list. -/
def hasAddrRecord (rrs : List RR) : Bool :=
  rrs.any (fun rr => match rr with | .a _ _ => true | .aaaa _ _ => true | _ => false)

/-- Whether a TXT record occurs in the list. -/
def hasTxtRecord (rrs : List RR) : Bool :=
  rrs.any (fun rr => match rr with | .txt _ _ => true | _ => false)

/-- Every SRV record in the list carries a nonzero port. -/
def srvPortsNonzero (rrs : List RR) : Bool :=
  rrs.all (fun rr => match rr with | .srv _ _ srvPort => srvPort != 0 | _ => true)

/-- Every A/AAAA record in the list carries a non-nil address. -/
def addrsNonNil (rrs : List RR) : Bool :=
  rrs.all (fun rr => match rr with
    | .a _ addr => addr != none
    | .aaaa _ addr => addr != none
    | _ => true)

/-- A record whose processing cannot destroy completeness: any record
except an SRV carrying port 0 or an address record carrying a nil
address. -/
def benignRR : RR → Prop
  | .srv _ _ srvPort => srvPort ≠ 0
  | .a _ addr => addr ≠ none
  | .aaaa _ addr => addr ≠ none
  | _ => True

/-- The entry `inp` points at after the answer loop of one message has
run over `answers` from the map `m0`: its key and its value in the
resulting map (`none` when no answer matched the switch and `inp` is
still the nil pointer). -/
def touchedEntry (m0 : EntryMap) (answers : List RR) :
    Option (String × ServiceEntry) :=
  match answers.foldl processAnswer (m0, none) with
  | (_, none) => none
  | (m, some n) => (lookupEntry m n).map (fun e => (n, e))

/-- The emission invariant of the receive loop: the names emitted so far
are pairwise distinct, and each of them is stored in the map with its
`sent` flag set. -/
def SentInv (st : QState) : Prop :=
  st.emitted.Nodup ∧
  ∀ n ∈ st.emitted, ∃ e, lookupEntry st.inprogress n = some e ∧ e.sent = true

/-- The record sequence of the C1 witness: one record of each kind about
the name "n.", the SRV with a nonzero port. -/
def c1GoodList : List RR :=
  [RR.ptr "q._tcp.local." "n.", RR.srv "n." "n." 80,
   RR.txt "n." ["k=v"], RR.a "n." (some [127, 0, 0, 1])]

/-- The record sequence refuting C1 as stated: an address record, a TXT
record and an SRV record each processed once, but the SRV carries port 0. -/
def c1BadList : List RR :=
  [RR.a "n." (some [127, 0, 0, 1]), RR.txt "n." ["k=v"], RR.srv "n." "n." 0]

/-- A fully populated, complete, not yet emitted entry, used as concrete
input in the C6 theorems. -/
def c6Entry : ServiceEntry :=
  ⟨"n.", some [127, 0, 0, 1], 80, "k=v", true, false⟩

/-- A message carrying all three pieces of information about "n.": the
entry becomes complete and is emitted when this message is processed. -/
def c5Msg1 : List RR :=
  [RR.srv "n." "n." 80, RR.txt "n." ["k=v"], RR.a "n." (some [127, 0, 0, 1])]

/-- A duplicate address record for "n.", delivered after `c5Msg1`. -/
def c5Msg2 : List RR := [RR.a "n." (some [127, 0, 0, 1])]

theorem complete_eq_true_iff (s : ServiceEntry) :
    s.complete = true ↔ (s.Addr ≠ none ∧ s.Port ≠ 0 ∧ s.hasTXT = true) := by
  simp [ServiceEntry.complete, bne_iff_ne, and_assoc]

theorem newClient_error_iff (ipv4 ipv6 : Option UDPConn) :
    (∃ err, newClient ipv4 ipv6 = .error err) ↔ (ipv4 = none ∧ ipv6 = none) := by
  unfold newClient
  by_cases h : ipv4 = none ∧ ipv6 = none <;> simp [h]

theorem newClient_ok (ipv4 ipv6 : Option UDPConn) (c : Client)
    (h : newClient ipv4 ipv6 = .ok c) :
    c.ipv4List = ipv4 ∧ c.ipv6List = ipv6 ∧ c.closed = false := by
  unfold newClient at h
  by_cases hb : ipv4 = none ∧ ipv6 = none <;> simp [hb] at h
  simp [← h]

/-- Claim C2: `complete()` returns true exactly when the address is
present (non-nil), the port is nonzero, and the `hasTXT` flag is set. -/
theorem c2_complete_characterization (s : ServiceEntry) :
    s.complete = true ↔ (s.Addr ≠ none ∧ s.Port ≠ 0 ∧ s.hasTXT = true) :=
  complete_eq_true_iff s

/-- Claim C7: `newClient` returns an error iff both the IPv4 and the IPv6
bind attempts failed; if at least one family bound, it returns a usable
client handle carrying exactly the two listeners. -/
theorem c7_newClient_degrades (ipv4 ipv6 : Option UDPConn) :
    ((∃ err, newClient ipv4 ipv6 = .error err) ↔ (ipv4 = none ∧ ipv6 = none)) ∧
    (∀ c : Client, newClient ipv4 ipv6 = .ok c →
      c.ipv4List = ipv4 ∧ c.ipv6List = ipv6 ∧ c.closed = false) :=
  ⟨newClient_error_iff ipv4 ipv6, fun c h => newClient_ok ipv4 ipv6 c h⟩

theorem c7_witness :
    ((∃ err, newClient (some ⟨4⟩) none = .error err) ↔
      ((some ⟨4⟩ : Option UDPConn) = none ∧ (none : Option UDPConn) = none)) ∧
    (∀ c : Client, newClient (some ⟨4⟩) none = .ok c →
      c.ipv4List = some ⟨4⟩ ∧ c.ipv6List = none ∧ c.closed = false) :=
  c7_newClient_degrades (some ⟨4⟩) none

/-- Claim C10: `sendQuery` returns an error iff packing the message
fails; when packing succeeds it returns nil whatever the outcomes of the
two socket writes, whose results the source discards. -/
theorem c10_sendQuery_pack_only (c : Client) (w4 w6 : Option String) :
    (∀ err, sendQuery c (.error err) w4 w6 = some err) ∧
    (∀ buf, sendQuery c (.ok buf) w4 w6 = none) :=
  ⟨fun _ => rfl, fun _ => rfl⟩

/-- Claim C9: contrary to the claim, a decoded message whose answer
section contains no PTR/SRV/TXT/A/AAAA record (empty, question-only, or
only other record types) leaves `inp` nil, and the completeness check
`inp.complete()` then dereferences a nil pointer (modelled by `none`). -/
theorem c9_nil_entry_dereference :
    processMessage? QState.init [] = none ∧
    processMessage? QState.init [RR.other "in-addr.arpa."] = none :=
  ⟨rfl, rfl⟩

/-- Claim C4 counterexample: with the initial send failing with error
"sendfail", `query` returns a nil error (the error component of its
result is `none`, not `some "sendfail"`): the failure is not surfaced. -/
theorem c4_counterexample :
    query (some "sendfail") [] = some (none, QState.init) ∧
    (none : Option String) ≠ some "sendfail" :=
  ⟨rfl, by simp⟩

/-- Claim C4 (amended): when the initial `sendQuery` fails, `query`
returns immediately — no message is processed — but its result is the
nil error, not the send failure (client.go returns `nil` at line 121). -/
theorem c4_initial_send_failure_aborts (err : String) (msgs : List (List RR)) :
    query (some err) msgs = some (none, QState.init) := rfl

theorem updateEntry_id (m : EntryMap) (name : String) :
    updateEntry m name (fun e => e) = m := by
  induction m with
  | nil => rfl
  | cons p rest ih => cases p with
    | mk k e => by_cases h : k = name <;> simp [updateEntry, h, ih]

theorem lookupEntry_updateEntry_self (m : EntryMap) (name : String)
    (f : ServiceEntry → ServiceEntry) :
    lookupEntry (updateEntry m name f) name = (lookupEntry m name).map f := by
  induction m with
  | nil => rfl
  | cons p rest ih => cases p with
    | mk k e => by_cases h : k = name <;> simp [updateEntry, lookupEntry, h, ih]

theorem lookupEntry_updateEntry_other (m : EntryMap) (name other : String)
    (f : ServiceEntry → ServiceEntry) (h : other ≠ name) :
    lookupEntry (updateEntry m name f) other = lookupEntry m other := by
  induction m with
  | nil => rfl
  | cons p rest ih =>
    cases p with
    | mk k e =>
      by_cases hk : k = name
      · subst hk
        simp [updateEntry, lookupEntry, Ne.symm h, ih]
      · by_cases hk2 : k = other <;> simp [updateEntry, lookupEntry, hk, hk2, h, ih]

theorem lookupEntry_append (m1 m2 : EntryMap) (name : String) :
    lookupEntry (m1 ++ m2) name =
      match lookupEntry m1 name with
      | some e => some e
      | none => lookupEntry m2 name := by
  induction m1 with
  | nil => simp [lookupEntry]
  | cons p rest ih => cases p with
    | mk k e => by_cases h : k = name <;> simp [lookupEntry, h, ih]

theorem lookupEntry_ensureName_self (m : EntryMap) (name : String) :
    lookupEntry (ensureName m name) name =
      some ((lookupEntry m name).getD { Name := name }) := by
  unfold ensureName
  cases h : lookupEntry m name with
  | some e => simp [h]
  | none => simp [lookupEntry_append, h, lookupEntry]

theorem lookupEntry_ensureName_other (m : EntryMap) (name other : String)
    (h : other ≠ name) :
    lookupEntry (ensureName m name) other = lookupEntry m other := by
  unfold ensureName
  cases hm : lookupEntry m name with
  | some e => rfl
  | none =>
    rw [lookupEntry_append]
    cases ho : lookupEntry m other with
    | some e => rfl
    | none => simp [lookupEntry, Ne.symm h]

/-- The answer switch, factored through `rrName` and `applyRR`: records
outside the switch leave the state alone, a record about `n` ensures an
entry for `n`, rewrites it with the record's mutation, and points `inp`
at it. -/
theorem processAnswer_eq (m : EntryMap) (inp : Option String) (rr : RR) :
    processAnswer (m, inp) rr =
      match rrName rr with
      | none => (m, inp)
      | some n => (updateEntry (ensureName m n) n (fun e => applyRR e rr), some n) := by
  cases rr <;> simp [processAnswer, rrName, applyRR, updateEntry_id]

/-- What a single answer does to the entry stored under a name already
in the map: a record about that name rewrites it with `applyRR`, any
other record leaves it unchanged. -/
theorem lookupEntry_processAnswer (m : EntryMap) (inp : Option String) (rr : RR)
    (name : String) (e : ServiceEntry) (he : lookupEntry m name = some e) :
    lookupEntry (processAnswer (m, inp) rr).1 name =
      some (if rrName rr = some name then applyRR e rr else e) := by
  rw [processAnswer_eq]
  cases hr : rrName rr with
  | none => simp [he]
  | some n =>
    by_cases hn : name = n
    · subst hn
      simp [lookupEntry_updateEntry_self, lookupEntry_ensureName_self, he]
    · simp [lookupEntry_updateEntry_other _ _ _ _ hn,
        lookupEntry_ensureName_other _ _ _ hn, he, Ne.symm hn, hn]

theorem applyRR_sent (e : ServiceEntry) (rr : RR) :
    (applyRR e rr).sent = e.sent := by
  cases rr <;> rfl

theorem applyRR_Name (e : ServiceEntry) (rr : RR) :
    (applyRR e rr).Name = e.Name := by
  cases rr <;> rfl

theorem foldl_applyRR_hasTXT (rrs : List RR) (e : ServiceEntry) :
    (rrs.foldl applyRR e).hasTXT = (e.hasTXT || hasTxtRecord rrs) := by
  induction rrs generalizing e with
  | nil => simp [hasTxtRecord]
  | cons rr rest ih =>
    rw [List.foldl_cons, ih]
    cases rr <;> simp [applyRR, hasTxtRecord, List.any_cons]

theorem foldl_applyRR_Port (rrs : List RR) (e : ServiceEntry)
    (hp : srvPortsNonzero rrs = true) :
    ((rrs.foldl applyRR e).Port ≠ 0) ↔ (e.Port ≠ 0 ∨ hasSrvRecord rrs = true) := by
  induction rrs generalizing e with
  | nil => simp [hasSrvRecord]
  | cons rr rest ih =>
    rw [srvPortsNonzero, List.all_cons, Bool.and_eq_true] at hp
    rw [List.foldl_cons, ih _ hp.2]
    cases rr with
    | srv hdrName target srvPort =>
      have hport : (srvPort : Int) ≠ 0 := by
        have := hp.1
        simp only [bne_iff_ne, ne_eq] at this
        exact_mod_cast this
      simp [applyRR, hasSrvRecord, List.any_cons, hport]
    | ptr hdrName target => simp [applyRR, hasSrvRecord, List.any_cons]
    | txt hdrName txtData => simp [applyRR, hasSrvRecord, List.any_cons]
    | a hdrName addr => simp [applyRR, hasSrvRecord, List.any_cons]
    | aaaa hdrName addr => simp [applyRR, hasSrvRecord, List.any_cons]
    | other hdrName => simp [applyRR, hasSrvRecord, List.any_cons]

theorem foldl_applyRR_Addr (rrs : List RR) (e : ServiceEntry)
    (ha : addrsNonNil rrs = true) :
    ((rrs.foldl applyRR e).Addr ≠ none) ↔ (e.Addr ≠ none ∨ hasAddrRecord rrs = true) := by
  induction rrs generalizing e with
  | nil => simp [hasAddrRecord]
  | cons rr rest ih =>
    rw [addrsNonNil, List.all_cons, Bool.and_eq_true] at ha
    rw [List.foldl_cons, ih _ ha.2]
    cases rr with
    | a hdrName addr =>
      have haddr : addr ≠ none := by
        have := ha.1
        simpa [bne_iff_ne] using this
      simp [applyRR, hasAddrRecord, List.any_cons, haddr]
    | aaaa hdrName addr =>
      have haddr : addr ≠ none := by
        have := ha.1
        simpa [bne_iff_ne] using this
      simp [applyRR, hasAddrRecord, List.any_cons, haddr]
    | ptr hdrName target => simp [applyRR, hasAddrRecord, List.any_cons]
    | srv hdrName target srvPort => simp [applyRR, hasAddrRecord, List.any_cons]
    | txt hdrName txtData => simp [applyRR, hasAddrRecord, List.any_cons]
    | other hdrName => simp [applyRR, hasAddrRecord, List.any_cons]

/-- One step of the answer loop on a map holding exactly the entry for
the single name the records are about. -/
theorem processAnswer_singleton (n : String) (e : ServiceEntry)
    (inp : Option String) (rr : RR) (h : rrName rr = some n) :
    processAnswer ([(n, e)], inp) rr = ([(n, applyRR e rr)], some n) := by
  rw [processAnswer_eq, h]
  simp [ensureName, lookupEntry, updateEntry]

/-- Folding the answer loop over records that are all about one name,
starting from the map holding just that name's entry, folds `applyRR`
over the entry. -/
theorem foldl_processAnswer_singleton (n : String) (rrs : List RR)
    (e : ServiceEntry) (inp : Option String)
    (hn : ∀ rr ∈ rrs, rrName rr = some n) :
    rrs.foldl processAnswer ([(n, e)], inp) =
      ([(n, rrs.foldl applyRR e)], if rrs.isEmpty then inp else some n) := by
  induction rrs generalizing e inp with
  | nil => simp
  | cons rr rest ih =>
    rw [List.foldl_cons, processAnswer_singleton n e inp rr (hn rr (by simp)),
      List.foldl_cons, ih (applyRR e rr) (some n) (fun r hr => hn r (by simp [hr]))]
    by_cases hrest : rest.isEmpty <;> simp [hrest]

/-- Folding the answer loop over a nonempty list of records all about
one name, starting from the empty map (the state at the top of each
message), produces exactly that name's entry, built by `applyRR` from
the fresh entry, with `inp` pointing at it. -/
theorem foldl_processAnswer_from_empty (n : String) (rrs : List RR)
    (hne : rrs ≠ []) (hn : ∀ rr ∈ rrs, rrName rr = some n) :
    rrs.foldl processAnswer ([], none) =
      ([(n, rrs.foldl applyRR { Name := n })], some n) := by
  cases rrs with
  | nil => exact absurd rfl hne
  | cons rr rest =>
    have hstep : processAnswer ([], none) rr =
        ([(n, applyRR { Name := n } rr)], some n) := by
      rw [processAnswer_eq, hn rr (by simp)]
      simp [ensureName, lookupEntry, updateEntry]
    rw [List.foldl_cons, hstep,
      foldl_processAnswer_singleton n rest _ (some n)
        (fun r hr => hn r (by simp [hr])), List.foldl_cons]
    by_cases hrest : rest.isEmpty <;> simp [hrest]

/-- Claim C1 (amended): over a nonempty sequence of answer records about
a single name in which every SRV record carries a nonzero port and
every address record a non-nil address, the answer loop run from the
fresh map yields that name's entry, and the entry is complete iff an
address record, an SRV record and a TXT record each occur in the
sequence — a condition invariant under permutation of the records.
(Without the nonzero-port restriction the equivalence fails: an SRV
record storing port 0 counts as processed but leaves the entry
incomplete.) -/
theorem c1_complete_iff_all_kinds (n : String) (rrs : List RR)
    (hne : rrs ≠ [])
    (hn : ∀ rr ∈ rrs, rrName rr = some n)
    (hp : srvPortsNonzero rrs = true)
    (ha : addrsNonNil rrs = true) :
    ∃ e, rrs.foldl processAnswer ([], none) = ([(n, e)], some n) ∧
      (e.complete = true ↔
        (hasAddrRecord rrs = true ∧ hasSrvRecord rrs = true ∧
         hasTxtRecord rrs = true)) := by
  refine ⟨rrs.foldl applyRR { Name := n },
    foldl_processAnswer_from_empty n rrs hne hn, ?_⟩
  rw [complete_eq_true_iff, foldl_applyRR_Addr rrs _ ha,
    foldl_applyRR_Port rrs _ hp, foldl_applyRR_hasTXT]
  simp

theorem c1_witness :
    ∃ e, c1GoodList.foldl processAnswer ([], none) = ([("n.", e)], some "n.") ∧
      (e.complete = true ↔
        (hasAddrRecord c1GoodList = true ∧ hasSrvRecord c1GoodList = true ∧
         hasTxtRecord c1GoodList = true)) :=
  c1_complete_iff_all_kinds "n." c1GoodList (by decide) (by decide)
    (by decide) (by decide)

/-- Claim C1 counterexample: in `c1BadList` an address record, a
service-location record and a text record have each been processed once
for the name "n.", yet the resulting entry is not complete, because the
SRV record stored port 0. -/
theorem c1_counterexample :
    hasAddrRecord c1BadList = true ∧ hasSrvRecord c1BadList = true ∧
    hasTxtRecord c1BadList = true ∧
    (rrName (RR.a "n." (some [127, 0, 0, 1])) = some "n." ∧
     rrName (RR.txt "n." ["k=v"]) = some "n." ∧
     rrName (RR.srv "n." "n." 0) = some "n.") ∧
    c1BadList.foldl processAnswer ([], none) =
      ([("n.", ⟨"n.", some [127, 0, 0, 1], 0, "k=v", true, false⟩)], some "n.") ∧
    ServiceEntry.complete ⟨"n.", some [127, 0, 0, 1], 0, "k=v", true, false⟩ = false := by
  decide

theorem applyRR_hasTXT_mono (e : ServiceEntry) (rr : RR) (h : e.hasTXT = true) :
    (applyRR e rr).hasTXT = true := by
  cases rr <;> simp [applyRR, h]

theorem applyRR_complete_mono (e : ServiceEntry) (rr : RR) (hb : benignRR rr)
    (hc : e.complete = true) : (applyRR e rr).complete = true := by
  rw [complete_eq_true_iff] at hc ⊢
  cases rr with
  | ptr hdrName target => exact hc
  | other hdrName => exact hc
  | srv hdrName target srvPort =>
    refine ⟨hc.1, ?_, hc.2.2⟩
    simp only [benignRR] at hb
    show ¬((srvPort : Int) = 0)
    exact_mod_cast hb
  | txt hdrName txtData => exact ⟨hc.1, hc.2.1, rfl⟩
  | a hdrName addr => exact ⟨hb, hc.2.1, hc.2.2⟩
  | aaaa hdrName addr => exact ⟨hb, hc.2.1, hc.2.2⟩

/-- Claim C6 (amended): processing one more answer never clears the
`hasTXT` flag of an entry already in the map; and a complete entry stays
complete through any further record except an SRV record carrying port 0
or an address record carrying a nil address, which overwrite the port
(resp. the address) and can make the entry incomplete again. -/
theorem c6_monotone_fields (m : EntryMap) (inp : Option String) (rr : RR)
    (name : String) (e e' : ServiceEntry)
    (he : lookupEntry m name = some e)
    (he' : lookupEntry (processAnswer (m, inp) rr).1 name = some e') :
    (e.hasTXT = true → e'.hasTXT = true) ∧
    (benignRR rr → e.complete = true → e'.complete = true) := by
  rw [lookupEntry_processAnswer m inp rr name e he] at he'
  have he2 : e' = if rrName rr = some name then applyRR e rr else e :=
    (Option.some.inj he').symm
  by_cases hr : rrName rr = some name
  · rw [if_pos hr] at he2
    subst he2
    exact ⟨applyRR_hasTXT_mono e rr, fun hb hc => applyRR_complete_mono e rr hb hc⟩
  · rw [if_neg hr] at he2
    subst he2
    exact ⟨fun h => h, fun _ hc => hc⟩

theorem c6_witness :
    (c6Entry.hasTXT = true →
      (⟨"n.", some [127, 0, 0, 1], 80, "x", true, false⟩ : ServiceEntry).hasTXT = true) ∧
    (benignRR (RR.txt "n." ["x"]) → c6Entry.complete = true →
      ServiceEntry.complete ⟨"n.", some [127, 0, 0, 1], 80, "x", true, false⟩ = true) :=
  c6_monotone_fields [("n.", c6Entry)] (some "n.") (RR.txt "n." ["x"]) "n."
    c6Entry ⟨"n.", some [127, 0, 0, 1], 80, "x", true, false⟩ (by decide) (by decide)

/-- Claim C6 counterexample: the complete entry `c6Entry` becomes
incomplete when an SRV record with port 0 for its name is processed —
the port field is overwritten with 0, so the state machine is not
monotonic. -/
theorem c6_counterexample :
    c6Entry.complete = true ∧
    lookupEntry (processAnswer ([("n.", c6Entry)], some "n.") (RR.srv "n." "n." 0)).1 "n."
      = some ⟨"n.", some [127, 0, 0, 1], 0, "k=v", true, false⟩ ∧
    ServiceEntry.complete ⟨"n.", some [127, 0, 0, 1], 0, "k=v", true, false⟩ = false := by
  decide

/-- Claim C5 (amended): after the answers of one message are processed,
the follow-up "any record" query for the touched entry's name is issued
exactly when that entry is NOT both complete and not-yet-emitted: an
incomplete entry triggers it, but so does a complete entry that was
already emitted earlier (the else branch of client.go lines 163-176);
emission happens in precisely the complementary case. -/
theorem c5_followup_iff_not_fresh_complete (st : QState) (answers : List RR)
    (st' : QState) (h : processMessage? st answers = some st') :
    ∃ n e, touchedEntry st.inprogress answers = some (n, e) ∧
      st'.followups = st.followups ++ (if e.complete && !e.sent then [] else [n]) ∧
      st'.emitted = st.emitted ++ (if e.complete && !e.sent then [n] else []) := by
  unfold processMessage? at h
  unfold touchedEntry
  rcases hf : answers.foldl processAnswer (st.inprogress, none) with ⟨m, inp⟩
  rw [hf] at h
  cases inp with
  | none => exact absurd h (by simp)
  | some n =>
    dsimp only at h ⊢
    cases hl : lookupEntry m n with
    | none => rw [hl] at h; exact absurd h (by simp)
    | some e =>
      rw [hl] at h
      dsimp only at h
      refine ⟨n, e, by simp [hl], ?_⟩
      by_cases hc : (e.complete && !e.sent) = true
      · rw [if_pos hc] at h
        obtain rfl := (Option.some.inj h).symm
        simp [hc]
      · rw [if_neg hc] at h
        obtain rfl := (Option.some.inj h).symm
        simp [hc]

theorem c5_witness :
    ∃ n e, touchedEntry QState.init.inprogress [RR.ptr "q._tcp.local." "n."] = some (n, e) ∧
      (⟨[("n.", { Name := "n." })], [], ["n."]⟩ : QState).followups =
        QState.init.followups ++ (if e.complete && !e.sent then [] else [n]) ∧
      (⟨[("n.", { Name := "n." })], [], ["n."]⟩ : QState).emitted =
        QState.init.emitted ++ (if e.complete && !e.sent then [n] else []) :=
  c5_followup_iff_not_fresh_complete QState.init [RR.ptr "q._tcp.local." "n."]
    ⟨[("n.", { Name := "n." })], [], ["n."]⟩ (by decide)

/-- Claim C5 counterexample: after `c5Msg1` the entry for "n." is
complete and has been emitted; the duplicate record in `c5Msg2` then
makes the loop fire a follow-up query for "n." although the entry is
complete — the claim says no follow-up is sent for a complete entry. -/
theorem c5_counterexample :
    queryLoop QState.init [c5Msg1, c5Msg2] =
      some ⟨[("n.", ⟨"n.", some [127, 0, 0, 1], 80, "k=v", true, true⟩)],
            ["n."], ["n."]⟩ ∧
    ServiceEntry.complete ⟨"n.", some [127, 0, 0, 1], 80, "k=v", true, true⟩ = true := by
  decide

theorem sent_preserved_processAnswer (p : EntryMap × Option String) (rr : RR)
    (name : String) (e : ServiceEntry) (he : lookupEntry p.1 name = some e)
    (hs : e.sent = true) :
    ∃ e', lookupEntry (processAnswer p rr).1 name = some e' ∧ e'.sent = true := by
  rcases p with ⟨m, inp⟩
  rw [lookupEntry_processAnswer m inp rr name e he]
  by_cases hr : rrName rr = some name <;> simp [hr, applyRR_sent, hs]

theorem sent_preserved_fold (answers : List RR) (p : EntryMap × Option String)
    (name : String) (h : ∃ e, lookupEntry p.1 name = some e ∧ e.sent = true) :
    ∃ e', lookupEntry (answers.foldl processAnswer p).1 name = some e' ∧
      e'.sent = true := by
  induction answers generalizing p with
  | nil => exact h
  | cons rr rest ih =>
    rcases h with ⟨e, he, hs⟩
    rw [List.foldl_cons]
    exact ih _ (sent_preserved_processAnswer p rr name e he hs)

theorem processMessage_SentInv (st st' : QState) (answers : List RR)
    (h : processMessage? st answers = some st') (hinv : SentInv st) :
    SentInv st' := by
  unfold processMessage? at h
  rcases hf : answers.foldl processAnswer (st.inprogress, none) with ⟨m, inp⟩
  rw [hf] at h
  cases inp with
  | none => exact absurd h (by simp)
  | some n =>
    dsimp only at h
    cases hl : lookupEntry m n with
    | none => rw [hl] at h; exact absurd h (by simp)
    | some e =>
      rw [hl] at h
      dsimp only at h
      have hm : ∀ nm ∈ st.emitted,
          ∃ e2, lookupEntry m nm = some e2 ∧ e2.sent = true := by
        intro nm hnm
        have := sent_preserved_fold answers (st.inprogress, none) nm (hinv.2 nm hnm)
        rwa [hf] at this
      by_cases hc : (e.complete && !e.sent) = true
      · rw [if_pos hc] at h
        obtain rfl := (Option.some.inj h).symm
        have hnotin : n ∉ st.emitted := by
          intro hin
          rcases hm n hin with ⟨e2, he2, hs2⟩
          rw [hl] at he2
          obtain rfl := Option.some.inj he2
          rw [Bool.and_eq_true, Bool.not_eq_true'] at hc
          rw [hs2] at hc
          exact absurd hc.2 (by simp)
        constructor
        · simp only [SentInv]
          rw [List.nodup_append]
          refine ⟨hinv.1, List.nodup_singleton n, fun a ha hb => hnotin ?_⟩
          rw [List.mem_singleton] at hb
          rwa [hb] at ha
        · intro nm hnm
          by_cases hn : nm = n
          · subst hn
            refine ⟨{ e with sent := true }, ?_, rfl⟩
            simp [lookupEntry_updateEntry_self, hl]
          · rcases List.mem_append.1 hnm with hnm1 | hnm2
            · rcases hm nm hnm1 with ⟨e2, he2, hs2⟩
              refine ⟨e2, ?_, hs2⟩
              rw [lookupEntry_updateEntry_other m n nm _ hn]
              exact he2
            · exact absurd (by simpa using hnm2) hn
      · rw [if_neg hc] at h
        obtain rfl := (Option.some.inj h).symm
        exact ⟨hinv.1, hm⟩

theorem queryLoop_SentInv (msgs : List (List RR)) (st st' : QState)
    (h : queryLoop st msgs = some st') (hinv : SentInv st) : SentInv st' := by
  induction msgs generalizing st with
  | nil =>
    unfold queryLoop at h
    obtain rfl := (Option.some.inj h).symm
    exact hinv
  | cons msg rest ih =>
    unfold queryLoop at h
    cases hp : processMessage? st msg with
    | none => rw [hp] at h; exact absurd h (by simp)
    | some st1 =>
      rw [hp] at h
      exact ih st1 h (processMessage_SentInv st st1 msg hp hinv)

/-- Claim C3: across one whole invocation of the receive loop, however
many messages arrive and however often records for the same name are
repeated, each name is sent to the output stream at most once — the
emitted names are pairwise distinct, enforced by the `sent` flag. -/
theorem c3_emit_at_most_once (msgs : List (List RR)) (st' : QState)
    (h : queryLoop QState.init msgs = some st') :
    st'.emitted.Nodup :=
  (queryLoop_SentInv msgs QState.init st' h
    ⟨List.nodup_nil, by intro n hn; exact absurd hn (List.not_mem_nil n)⟩).1

theorem c3_witness :
    (⟨[("n.", ⟨"n.", some [127, 0, 0, 1], 80, "k=v", true, true⟩)],
      ["n."], []⟩ : QState).emitted.Nodup :=
  c3_emit_at_most_once
    [[RR.srv "n." "n." 80, RR.txt "n." ["k=v"], RR.a "n." (some [127, 0, 0, 1])]]
    ⟨[("n.", ⟨"n.", some [127, 0, 0, 1], 80, "k=v", true, true⟩)], ["n."], []⟩
    (by decide)

theorem query_error_component (initialSendErr : Option String)
    (msgs : List (List RR)) (r : Option String × QState)
    (h : query initialSendErr msgs = some r) : r.1 = none := by
  unfold query at h
  cases initialSendErr with
  | some e =>
    obtain rfl := (Option.some.inj h).symm
    rfl
  | none =>
    cases hq : queryLoop QState.init msgs with
    | none => rw [hq] at h; exact absurd h (by simp)
    | some st =>
      rw [hq] at h
      simp only [Option.map_some'] at h
      obtain rfl := (Option.some.inj h).symm
      rfl

/-- Claim C8: `LookupDomain` (and `Lookup`, which merely fixes the
domain and timeout) returns a non-nil error exactly when opening the
transport failed, i.e. when both UDP binds failed; whenever `newClient`
succeeds, the result is nil whatever happens while querying — `query`
returns nil on every path it completes. -/
theorem c8_error_only_transport_failure (ipv4 ipv6 : Option UDPConn)
    (initialSendErr : Option String) (msgs : List (List RR)) (res : Option String)
    (h : LookupDomain ipv4 ipv6 initialSendErr msgs = some res) :
    (res ≠ none ↔ (ipv4 = none ∧ ipv6 = none)) ∧
    Lookup ipv4 ipv6 initialSendErr msgs = LookupDomain ipv4 ipv6 initialSendErr msgs := by
  refine ⟨?_, rfl⟩
  unfold LookupDomain at h
  cases hc : newClient ipv4 ipv6 with
  | error err =>
    rw [hc] at h
    obtain rfl := (Option.some.inj h).symm
    have hb : ipv4 = none ∧ ipv6 = none :=
      (newClient_error_iff ipv4 ipv6).1 ⟨err, hc⟩
    simp [hb]
  | ok c =>
    rw [hc] at h
    cases hq : query initialSendErr msgs with
    | none => rw [hq] at h; exact absurd h (by simp)
    | some r =>
      rw [hq] at h
      simp only [Option.map_some'] at h
      obtain rfl := (Option.some.inj h).symm
      have h1 : r.1 = none := query_error_component initialSendErr msgs r hq
      constructor
      · intro hne; exact absurd h1 hne
      · rintro ⟨h4, h6⟩
        subst h4; subst h6
        simp [newClient] at hc

theorem c8_witness :
    ((none : Option String) ≠ none ↔
      ((some ⟨1⟩ : Option UDPConn) = none ∧ (none : Option UDPConn) = none)) ∧
    Lookup (some ⟨1⟩) none none [] = LookupDomain (some ⟨1⟩) none none [] :=
  c8_error_only_transport_failure (some ⟨1⟩) none none [] none (by decide)

end Mdns
